import Mathlib

/-!
# Verification of the arxiv-collector dependency classifier

A shallow embedding of `arxiv_collector.py` (version 0.1.1): the
comment-stripping transform `strip_comment`, the package-filter regex,
the per-dependency-line classifier inside `collect`, the stream framing
(`read_until`, start/end markers) and the build-failure path.
Strings are modelled as `List Char`; the external process stream is a
finite list of lines; the filesystem (symlink resolution, existence
checks) is abstracted by functions carried in an environment record.
-/

namespace ArxivCollector

/-! ## The comment-stripping transform

Source: `strip_comment = partial(re.compile(r'(^|[^\\])%.*').sub, r'\1%')`.
`re.sub` scans left to right; a match is a `%` either at the start of the
string or preceded by a character that is not a backslash (that preceding
character is consumed by the group), followed by the greedy `.*`, which
stops before a newline.  The replacement `\1%` re-inserts the group and
the `%` itself.  `stripGo` implements this scan: in mode `false` it scans
with `prev` holding the last character already emitted (a sentinel `' '`
stands for the absent character before position 0, where the `^` branch
admits a match); in mode `true` it is consuming the `.*` region, dropping
characters until a newline, at which point scanning resumes with the
newline as current character. -/
def stripGo : Bool → Char → List Char → List Char
  | _, _, [] => []
  | false, prev, c :: cs =>
    if c = '%' ∧ prev ≠ '\\' then '%' :: stripGo true ' ' cs
    else c :: stripGo false c cs
  | true, _, c :: cs =>
    if c = '\n' then c :: stripGo false c cs
    else stripGo true ' ' cs

/-- Model of the source's `strip_comment` applied to one string. -/
def strip_comment (s : List Char) : List Char :=
  stripGo false ' ' s

example : strip_comment "a%b".toList = "a%".toList := rfl
example : strip_comment "a\\%b".toList = "a\\%b".toList := rfl
example : strip_comment "%xy".toList = "%".toList := rfl
example : strip_comment "ab%cd\n".toList = "ab%\n".toList := rfl
example : strip_comment "a\\%b%c\n".toList = "a\\%b%\n".toList := rfl
example : strip_comment "no comment\n".toList = "no comment\n".toList := by decide

/-! ### Algebraic properties of the transform -/

theorem stripGo_false_cons (p c : Char) (cs : List Char) :
    stripGo false p (c :: cs) =
      if c = '%' ∧ p ≠ '\\' then '%' :: stripGo true ' ' cs
      else c :: stripGo false c cs := rfl

theorem stripGo_true_cons (q c : Char) (cs : List Char) :
    stripGo true q (c :: cs) =
      if c = '\n' then c :: stripGo false c cs
      else stripGo true ' ' cs := rfl

theorem stripGo_nil (m : Bool) (p : Char) : stripGo m p [] = [] := by
  cases m <;> rfl

/-- Joint idempotence of both scanning modes, by simultaneous induction on
the input; mode `false` is generalized over the previous character. -/
theorem stripGo_idem (s : List Char) :
    (∀ p, stripGo false p (stripGo false p s) = stripGo false p s) ∧
    stripGo true ' ' (stripGo true ' ' s) = stripGo true ' ' s := by
  induction s with
  | nil => simp [stripGo_nil]
  | cons c cs ih =>
    constructor
    · intro p
      by_cases h : c = '%' ∧ p ≠ '\\'
      · rw [stripGo_false_cons, if_pos h]
        rw [stripGo_false_cons,
          if_pos (show ('%' : Char) = '%' ∧ p ≠ '\\' from ⟨rfl, h.2⟩)]
        rw [ih.2]
      · rw [stripGo_false_cons, if_neg h]
        rw [stripGo_false_cons, if_neg h]
        rw [ih.1 c]
    · by_cases h : c = '\n'
      · subst h
        rw [stripGo_true_cons, if_pos rfl]
        rw [stripGo_true_cons, if_pos rfl]
        rw [ih.1 '\n']
      · rw [stripGo_true_cons, if_neg h]
        exact ih.2

/-- If a string contains no `%` at all then mode-`false` scanning never
fires a match, and the string is returned unchanged. -/
theorem stripGo_no_percent (s : List Char) :
    ∀ p, '%' ∉ s → stripGo false p s = s := by
  induction s with
  | nil => intro p _; rfl
  | cons c cs ih =>
    intro p h
    have hc : c ≠ '%' := fun hc => h (hc ▸ List.mem_cons_self c cs)
    have hcs : '%' ∉ cs := fun hm => h (List.mem_cons_of_mem c hm)
    have hcond : ¬(c = '%' ∧ p ≠ '\\') := fun hx => hc hx.1
    rw [stripGo_false_cons, if_neg hcond, ih c hcs]

/-- Both modes preserve a final newline: a string of the shape
`t ++ ['\n']` is mapped to some `w ++ ['\n']`. -/
theorem stripGo_trailing_newline (t : List Char) :
    (∀ p, ∃ w, stripGo false p (t ++ ['\n']) = w ++ ['\n']) ∧
    (∃ w, stripGo true ' ' (t ++ ['\n']) = w ++ ['\n']) := by
  induction t with
  | nil =>
    constructor
    · intro p
      refine ⟨[], ?_⟩
      have hne : ¬(('\n' : Char) = '%' ∧ p ≠ '\\') := fun hx =>
        absurd hx.1 (by decide)
      rw [List.nil_append, stripGo_false_cons, if_neg hne, stripGo_nil]
    · refine ⟨[], ?_⟩
      rw [List.nil_append, stripGo_true_cons, if_pos rfl, stripGo_nil]
  | cons c ts ih =>
    constructor
    · intro p
      by_cases h : c = '%' ∧ p ≠ '\\'
      · obtain ⟨w, hw⟩ := ih.2
        exact ⟨'%' :: w, by
          rw [List.cons_append, stripGo_false_cons, if_pos h, hw]; rfl⟩
      · obtain ⟨w, hw⟩ := ih.1 c
        exact ⟨c :: w, by
          rw [List.cons_append, stripGo_false_cons, if_neg h, hw]; rfl⟩
    · by_cases h : c = '\n'
      · subst h
        obtain ⟨w, hw⟩ := ih.1 '\n'
        exact ⟨'\n' :: w, by
          rw [List.cons_append, stripGo_true_cons, if_pos rfl, hw]; rfl⟩
      · obtain ⟨w, hw⟩ := ih.2
        exact ⟨w, by
          rw [List.cons_append, stripGo_true_cons, if_neg h, hw]⟩

/-- Both modes preserve the number of newline characters: a matched,
removed region `%.*` contains no newline, and skip mode only drops
non-newline characters. -/
theorem stripGo_count_newline (s : List Char) :
    (∀ p, (stripGo false p s).count '\n' = s.count '\n') ∧
    (stripGo true ' ' s).count '\n' = s.count '\n' := by
  induction s with
  | nil => simp [stripGo_nil]
  | cons c cs ih =>
    constructor
    · intro p
      by_cases h : c = '%' ∧ p ≠ '\\'
      · rw [stripGo_false_cons, if_pos h, h.1]
        have h1 : (('%' : Char) == '\n') = false := by decide
        simp [List.count_cons, h1, ih.2]
      · rw [stripGo_false_cons, if_neg h]
        simp [List.count_cons, ih.1 c]
    · by_cases h : c = '\n'
      · subst h
        rw [stripGo_true_cons, if_pos rfl]
        simp [List.count_cons, ih.1 '\n']
      · rw [stripGo_true_cons, if_neg h]
        have h1 : ((c : Char) == '\n') = false := by simp [h]
        simp [List.count_cons, h1, ih.2]

/-! ### A specification-level description of the transform -/

/-- Everything up to (excluding) the first newline is dropped; the part
from the first newline on is kept. -/
def skipRestOfLine : List Char → List Char
  | [] => []
  | c :: cs => if c = '\n' then c :: cs else skipRestOfLine cs

/-- Scanning step of `stripSpec`; `prev` is the previous character, with
the sentinel `' '` standing for the absent character before position 0. -/
def specGo : Char → List Char → List Char
  | _, [] => []
  | prev, c :: cs =>
    if c = '%' ∧ prev ≠ '\\' then '%' :: skipRestOfLine cs
    else c :: specGo c cs

/-- Follows the words of the comment-stripping description, to be
compared with the source-derived `strip_comment`: keep the line up to and
including the first unescaped `%` (one at the start of the line, or one
whose preceding character is not a backslash), remove everything after it
on that line, and preserve a trailing newline; a `%` preceded by a
backslash is kept literally and does not start a comment. -/
def stripSpec (s : List Char) : List Char :=
  specGo ' ' s

theorem specGo_cons (prev c : Char) (cs : List Char) :
    specGo prev (c :: cs) =
      if c = '%' ∧ prev ≠ '\\' then '%' :: skipRestOfLine cs
      else c :: specGo c cs := rfl

theorem skipRestOfLine_no_newline (l : List Char) (h : '\n' ∉ l) :
    skipRestOfLine l = [] := by
  induction l with
  | nil => rfl
  | cons c cs ih =>
    have hc : ¬(c = '\n') := fun hc => h (hc ▸ List.mem_cons_self c cs)
    have hcs : '\n' ∉ cs := fun hm => h (List.mem_cons_of_mem c hm)
    rw [skipRestOfLine, if_neg hc, ih hcs]

theorem skipRestOfLine_single (t : List Char) (h : '\n' ∉ t) :
    skipRestOfLine (t ++ ['\n']) = ['\n'] := by
  induction t with
  | nil => rfl
  | cons c ts ih =>
    have hc : ¬(c = '\n') := fun hc => h (hc ▸ List.mem_cons_self c ts)
    have hts : '\n' ∉ ts := fun hm => h (List.mem_cons_of_mem c hm)
    rw [List.cons_append, skipRestOfLine, if_neg hc, ih hts]

theorem stripGo_true_no_newline (l : List Char) (h : '\n' ∉ l) :
    stripGo true ' ' l = [] := by
  induction l with
  | nil => rfl
  | cons c cs ih =>
    have hc : ¬(c = '\n') := fun hc => h (hc ▸ List.mem_cons_self c cs)
    have hcs : '\n' ∉ cs := fun hm => h (List.mem_cons_of_mem c hm)
    rw [stripGo_true_cons, if_neg hc, ih hcs]

theorem stripGo_true_single (t : List Char) (h : '\n' ∉ t) :
    stripGo true ' ' (t ++ ['\n']) = ['\n'] := by
  induction t with
  | nil =>
    rw [List.nil_append, stripGo_true_cons, if_pos rfl, stripGo_nil]
  | cons c ts ih =>
    have hc : ¬(c = '\n') := fun hc => h (hc ▸ List.mem_cons_self c ts)
    have hts : '\n' ∉ ts := fun hm => h (List.mem_cons_of_mem c hm)
    rw [List.cons_append, stripGo_true_cons, if_neg hc, ih hts]

/-- On a single line (a newline may occur only as the last character) the
source transform and the specification-level transform agree, for any
previous-character state. -/
theorem stripGo_eq_specGo (s : List Char) :
    ∀ p, '\n' ∉ s.dropLast → stripGo false p s = specGo p s := by
  induction s with
  | nil => intro p _; rfl
  | cons c cs ih =>
    intro p h
    by_cases hm : c = '%' ∧ p ≠ '\\'
    · rw [stripGo_false_cons, if_pos hm, specGo_cons, if_pos hm]
      have htail : '\n' ∉ cs.dropLast := by
        intro hmem
        apply h
        cases cs with
        | nil => simp at hmem
        | cons d ds =>
          rw [List.dropLast_cons₂]
          exact List.mem_cons_of_mem c hmem
      by_cases hn : '\n' ∈ cs
      · have hne : cs ≠ [] := by rintro rfl; simp at hn
        have hsplit : cs = cs.dropLast ++ [cs.getLast hne] := by
          rw [List.dropLast_append_getLast]
        have hlast : cs.getLast hne = '\n' := by
          by_contra hno
          apply absurd hn
          rw [hsplit]
          intro hmem
          rcases List.mem_append.1 hmem with h1 | h1
          · exact htail h1
          · rcases List.mem_singleton.1 h1 with h2
            exact hno h2.symm
        rw [hsplit, hlast, stripGo_true_single _ htail,
          skipRestOfLine_single _ htail]
      · rw [stripGo_true_no_newline _ hn, skipRestOfLine_no_newline _ hn]
    · rw [stripGo_false_cons, if_neg hm, specGo_cons, if_neg hm]
      have htail : '\n' ∉ cs.dropLast := by
        intro hmem
        apply h
        cases cs with
        | nil => simp at hmem
        | cons d ds =>
          rw [List.dropLast_cons₂]
          exact List.mem_cons_of_mem c hmem
      rw [ih c htail]

/-! ## String helpers used by `collect`

Boolean, structurally recursive versions of the Python operations
`str.startswith`, `str.endswith`, substring search, `str.strip` and
`os.path.basename`. -/

/-- `startsWithB p s` holds when `p` is an initial segment of `s`. -/
def startsWithB : List Char → List Char → Bool
  | [], _ => true
  | _ :: _, [] => false
  | a :: as, b :: bs => a == b && startsWithB as bs

/-- `endsWithB p s` models Python `s.endswith(p)`. -/
def endsWithB (p s : List Char) : Bool :=
  startsWithB p.reverse s.reverse

/-- `containsB p s` holds when `p` occurs as a contiguous substring of
`s`; it models a regex search for the literal text `p`. -/
def containsB (p : List Char) : List Char → Bool
  | [] => startsWithB p []
  | s@(_ :: t) => startsWithB p s || containsB p t

/-- The whitespace characters removed by Python `str.strip()`. -/
def isPySpace (c : Char) : Bool :=
  c == ' ' || c == '\t' || c == '\n' || c == '\r' ||
    c == Char.ofNat 11 || c == Char.ofNat 12

/-- Python `str.strip()`: drop leading and trailing whitespace. -/
def pyStrip (s : List Char) : List Char :=
  ((s.dropWhile isPySpace).reverse.dropWhile isPySpace).reverse

/-- `os.path.basename`: the part after the last `'/'`. -/
def basename (s : List Char) : List Char :=
  (s.reverse.takeWhile (fun c => !(c == '/'))).reverse

example : pyStrip "  a.tex \\\n".toList = "a.tex \\".toList := rfl
example : basename "/usr/share/x/biblatex.sty".toList = "biblatex.sty".toList := rfl

/-! ## The package filter

Source: `pkg_re = re.compile('/' + '|'.join(re.escape(p) for p in packages) + '/')`.
For packages `p1, ..., pn` the pattern text is `/p1|p2|...|pn/`.  Since
regex alternation has the lowest precedence, the alternatives of this
pattern are `/p1`, `p2`, ..., `p(n-1)` and `pn/`: the leading slash binds
to the first alternative only and the trailing slash to the last only.
With a single package the sole alternative is `/p1/`, and with an empty
package list the pattern is `//`.  Each `re.escape`d package name matches
itself literally, so `pkg_re.search(dep)` holds exactly when some
alternative occurs as a substring of `dep`. -/

/-- All alternatives after the first: bare package names except the last,
which carries the closing slash. -/
def pkgAltsTail : List (List Char) → List (List Char)
  | [] => []
  | [q] => [q ++ ['/']]
  | q :: r :: rest => q :: pkgAltsTail (r :: rest)

/-- The alternatives of the compiled package-filter pattern. -/
def pkgAlts : List (List Char) → List (List Char)
  | [] => [['/', '/']]
  | [p] => ['/' :: (p ++ ['/'])]
  | p :: q :: rest => ('/' :: p) :: pkgAltsTail (q :: rest)

/-- Model of `pkg_re.search(dep)`. -/
def pkgSearch (pkgs : List (List Char)) (dep : List Char) : Bool :=
  (pkgAlts pkgs).any (fun a => containsB a dep)

/-- Follows the words of the specification, to be compared with the
source-derived `pkgSearch`: a path matches the package filter set when it
contains `/<pkg>/` for some configured package. -/
def pkgMatchSpec (pkgs : List (List Char)) (dep : List Char) : Bool :=
  pkgs.any (fun p => containsB ('/' :: (p ++ ['/'])) dep)

example : pkgSearch ["biblatex".toList]
    "/usr/share/texmf/tex/latex/biblatex/biblatex.sty".toList = true := rfl
example : pkgSearch ["biblatex".toList] "figures/plot.eps".toList = false := rfl

/-! ## The per-line dependency classifier -/

/-- How an archive entry's content is produced. -/
inductive Kind where
  /-- content copied verbatim from the source path -/
  | verbatim : Kind
  /-- content is the source file with `strip_comment` applied per line -/
  | stripped : Kind
deriving DecidableEq

/-- One archive entry: the path whose content is read (`src`), the name
recorded in the archive (`arc`), and how the content is produced. -/
structure Entry where
  src : List Char
  arc : List Char
  kind : Kind
deriving DecidableEq

/-- The ambient configuration and filesystem of a `collect` run:
the configured package names, the comment-stripping switch, the symlink
resolver (the source's `target`, which follows links until the path is
no longer a link) and `os.path.exists`. -/
structure Env where
  packages : List (List Char)
  strip_comments : Bool
  target : List Char → List Char
  path_exists : List Char → Bool

/-- A raw dependency line is stripped of surrounding whitespace and of a
trailing line-continuation backslash. -/
def cleanDep (l : List Char) : List Char :=
  let d := pyStrip l
  if d.getLast? = some '\\' then d.dropLast else d

/-- For a path ending in `.eps`: the path without its last 4 chars. -/
def epsBase (d : List Char) : List Char :=
  d.take (d.length - 4)

/-- The converted-PDF companion path of a `.eps` path. -/
def epsPdf (d : List Char) : List Char :=
  epsBase d ++ "-eps-converted-to.pdf".toList

/-- The branch cascade of `collect`'s dependency loop on the cleaned
path, from `dep.startswith('/')` down to the final verbatim
`out_tar.add`.  Returns the archive entries this path produces, or the
failed assertion (`assert os.path.exists(pdf)`). -/
def classify (env : Env) (dep : List Char) : Except String (List Entry) :=
  if dep.head? = some '/' then
    if pkgSearch env.packages dep then
      .ok [⟨env.target dep, basename dep, Kind.verbatim⟩]
    else .ok []
  else if endsWithB ".tex".toList dep && env.strip_comments then
    .ok [⟨dep, dep, Kind.stripped⟩]
  else if endsWithB ".eps".toList dep then
    if env.path_exists (epsPdf dep) then
      .ok [⟨env.target (epsPdf dep), epsBase dep ++ ".pdf".toList, Kind.verbatim⟩]
    else .error "AssertionError"
  else if endsWithB "-eps-converted-to.pdf".toList dep then .ok []
  else if endsWithB ".bib".toList dep then .ok []
  else .ok [⟨env.target dep, dep, Kind.verbatim⟩]

/-- The classifier applied to one raw dependency line: clean the line
(whitespace, line continuation), then run the branch cascade. -/
def processDep (env : Env) (l : List Char) : Except String (List Entry) :=
  classify env (cleanDep l)

/-! ## Stream framing

The external process output is modelled as a finite list of lines; the
end of the list is end-of-stream, where Python's `readline` returns `''`
(an empty line also signals end-of-stream in the source's check
`if line == '': raise ValueError("Unexpected EOF")`). -/

/-- Model of the source's `read_until`: read lines until `check` holds,
returning the lines read before the matching line (which is consumed but
not yielded) together with the remaining stream; raise on end of
stream. -/
def read_until (check : List Char → Bool) :
    List (List Char) → Except String (List (List Char) × List (List Char))
  | [] => .error "Unexpected EOF"
  | l :: ls =>
    if l = [] then .error "Unexpected EOF"
    else if check l then .ok ([], ls)
    else
      match read_until check ls with
      | .error e => .error e
      | .ok (ys, rest) => .ok (l :: ys, rest)

/-- First form of the start marker,
`'#===Dependents for {base}:\n'`. -/
def depsStart1 (base : List Char) : List Char :=
  "#===Dependents for ".toList ++ base ++ ":\n".toList

/-- Second form of the start marker,
`'#===Dependents, and related info, for {base}:\n'`. -/
def depsStart2 (base : List Char) : List Char :=
  "#===Dependents, and related info, for ".toList ++ base ++ ":\n".toList

/-- Model of `re.compile(pat).match(line)` for the start-marker pattern
`'#===Dependents(, and related info,)? for {base}:\n'`: the optional
group gives two literal alternatives, and `match` anchors at the start of
the line. -/
def startCheck (base l : List Char) : Bool :=
  startsWithB (depsStart1 base) l || startsWithB (depsStart2 base) l

/-- The end-marker line `'#===End dependents for {base}:\n'`, compared
for full equality (`end_line.__eq__`). -/
def endLine (base : List Char) : List Char :=
  "#===End dependents for ".toList ++ base ++ ":\n".toList

/-- The line the header assertion expects after stripping:
`'{base}.pdf :\\'` (a make-style rule header). -/
def headerExpected (base : List Char) : List Char :=
  base ++ ".pdf :\\".toList

/-- The dependency loop `for line in read_until(end_line.__eq__)`, fused
with the classifier body as in the source: lines are pulled one at a
time, each one's entries are emitted before the next line is read, and
the loop ends at the end-marker line, at end of stream (`ValueError`), or
at a failed assertion.  Returns the entries emitted in order, and the
error if the loop was aborted by one. -/
def processBlock (env : Env) (endL : List Char) :
    List (List Char) → List Entry × Option String
  | [] => ([], some "Unexpected EOF")
  | l :: ls =>
    if l = [] then ([], some "Unexpected EOF")
    else if l = endL then ([], none)
    else
      match processDep env l with
      | .error e => ([], some e)
      | .ok es =>
        let r := processBlock env endL ls
        (es ++ r.1, r.2)

/-- The archive entry for the compiled bibliography,
`out_tar.add('{base}.bbl')`: no symlink resolution, archive name equal to
the path. -/
def bblEntry (base : List Char) : Entry :=
  ⟨base ++ ".bbl".toList, base ++ ".bbl".toList, Kind.verbatim⟩

/-- The overall outcome of a `collect` run. -/
inductive Outcome where
  /-- normal return; `entries` were added to the archive in order -/
  | ok (entries : List Entry) : Outcome
  /-- the build tool exited with nonzero `code`: the program cleans the
  build artifacts (`latexmk -C`) and terminates via `sys.exit(code)`;
  `entries` had already been written before the exit -/
  | buildFailed (code : Int) (entries : List Entry) : Outcome
  /-- an uncaught `ValueError`/`AssertionError` aborted the run after
  `entries` had been written -/
  | fatal (msg : String) (entries : List Entry) : Outcome
deriving DecidableEq

/-- The part of `collect` after the start marker was consumed: the header
assertion, the dependency loop, the exit-status check, and the final
unconditional bibliography entry. -/
def collectAfterStart (env : Env) (base : List Char) :
    List (List Char) → Int → Outcome
  | [], _ => .fatal "AssertionError" []
  | header :: rest2, returncode =>
    if pyStrip header = headerExpected base then
      match processBlock env (endLine base) rest2 with
      | (entries, some e) => .fatal e entries
      | (entries, none) =>
        if returncode ≠ 0 then .buildFailed returncode entries
        else .ok (entries ++ [bblEntry base])
    else .fatal "AssertionError" []

/-- Model of `collect(out_tar, base_name, packages, strip_comments)`:
scan the process output for the start marker, assert the make-rule
header, run the dependency loop, drain the rest of the stream, wait for
the process, and either exit with its nonzero code (after cleaning) or
add the final `<base>.bbl` entry. -/
def collect (env : Env) (base : List Char)
    (stream : List (List Char)) (returncode : Int) : Outcome :=
  match read_until (startCheck base) stream with
  | .error e => .fatal e []
  | .ok (_, rest) => collectAfterStart env base rest returncode

/-! ## Supporting lemmas -/

/-- Two initial segments of the same string are nested: the shorter is an
initial segment of the longer. -/
theorem startsWithB_of_both {p q s : List Char}
    (hp : startsWithB p s = true) (hq : startsWithB q s = true)
    (hl : p.length ≤ q.length) : startsWithB p q = true := by
  induction p generalizing q s with
  | nil => rfl
  | cons a as ih =>
    cases q with
    | nil => simp at hl
    | cons b bs =>
      cases s with
      | nil => simp [startsWithB] at hp
      | cons c cs =>
        simp only [startsWithB, Bool.and_eq_true, beq_iff_eq] at hp hq
        simp only [startsWithB, Bool.and_eq_true, beq_iff_eq]
        refine ⟨hp.1.trans hq.1.symm, ?_⟩
        exact ih hp.2 hq.2 (by simpa using hl)

/-- Two suffixes of the same string are nested: if both `p` and the
longer `q` are suffixes of `d`, then reversed `p` is an initial segment
of reversed `q`. -/
theorem endsWithB_nested {p q d : List Char}
    (hp : endsWithB p d = true) (hq : endsWithB q d = true)
    (hl : p.length ≤ q.length) :
    startsWithB p.reverse q.reverse = true :=
  startsWithB_of_both hp hq (by simpa using hl)

/-- A path ending in `.bib` does not end in `.tex`. -/
theorem bib_not_tex {d : List Char} (h : endsWithB ".bib".toList d = true) :
    endsWithB ".tex".toList d = false := by
  cases hx : endsWithB ".tex".toList d with
  | false => rfl
  | true =>
    have := endsWithB_nested h hx (by decide)
    exact absurd this (by decide)

/-- A path ending in `.bib` does not end in `.eps`. -/
theorem bib_not_eps {d : List Char} (h : endsWithB ".bib".toList d = true) :
    endsWithB ".eps".toList d = false := by
  cases hx : endsWithB ".eps".toList d with
  | false => rfl
  | true =>
    have := endsWithB_nested h hx (by decide)
    exact absurd this (by decide)

/-- A path ending in `.bib` does not end in `-eps-converted-to.pdf`. -/
theorem bib_not_converted {d : List Char}
    (h : endsWithB ".bib".toList d = true) :
    endsWithB "-eps-converted-to.pdf".toList d = false := by
  cases hx : endsWithB "-eps-converted-to.pdf".toList d with
  | false => rfl
  | true =>
    have := endsWithB_nested h hx (by decide)
    exact absurd this (by decide)

/-- A path ending in `.eps` does not end in `.tex`. -/
theorem eps_not_tex {d : List Char} (h : endsWithB ".eps".toList d = true) :
    endsWithB ".tex".toList d = false := by
  cases hx : endsWithB ".tex".toList d with
  | false => rfl
  | true =>
    have := endsWithB_nested h hx (by decide)
    exact absurd this (by decide)

/-- A path ending in `-eps-converted-to.pdf` does not end in `.tex`. -/
theorem converted_not_tex {d : List Char}
    (h : endsWithB "-eps-converted-to.pdf".toList d = true) :
    endsWithB ".tex".toList d = false := by
  cases hx : endsWithB ".tex".toList d with
  | false => rfl
  | true =>
    have := endsWithB_nested hx h (by decide)
    exact absurd this (by decide)

/-- A path ending in `-eps-converted-to.pdf` does not end in `.eps`. -/
theorem converted_not_eps {d : List Char}
    (h : endsWithB "-eps-converted-to.pdf".toList d = true) :
    endsWithB ".eps".toList d = false := by
  cases hx : endsWithB ".eps".toList d with
  | false => rfl
  | true =>
    have := endsWithB_nested hx h (by decide)
    exact absurd this (by decide)

/-- A line satisfying the start-marker check is nonempty. -/
theorem startCheck_ne_nil {base l : List Char}
    (h : startCheck base l = true) : l ≠ [] := by
  rintro rfl
  have h1 : depsStart1 base = '#' :: ("===Dependents for ".toList ++ base
      ++ ":\n".toList) := rfl
  have h2 : depsStart2 base = '#' :: ("===Dependents, and related info, for ".toList
      ++ base ++ ":\n".toList) := rfl
  simp only [startCheck, h1, h2, Bool.or_eq_true] at h
  rcases h with h | h <;> simp [startsWithB] at h

/-- The end-marker line is nonempty. -/
theorem endLine_ne_nil (base : List Char) : endLine base ≠ [] := by
  have h1 : endLine base = '#' :: ("===End dependents for ".toList ++ base
      ++ ":\n".toList) := rfl
  rw [h1]
  exact List.cons_ne_nil _ _

/-- `read_until` consumes exactly the lines before the first matching
line, which it also consumes, and leaves the rest of the stream. -/
theorem read_until_append (check : List Char → Bool)
    (pre : List (List Char)) (m : List Char) (rest : List (List Char))
    (hpre : ∀ l ∈ pre, l ≠ [] ∧ check l = false)
    (hm : check m = true) (hmne : m ≠ []) :
    read_until check (pre ++ m :: rest) = .ok (pre, rest) := by
  induction pre with
  | nil =>
    rw [List.nil_append, read_until, if_neg (by simpa using hmne), if_pos hm]
  | cons l ls ih =>
    obtain ⟨hne, hch⟩ := hpre l (List.mem_cons_self l ls)
    have ih2 := ih (fun x hx => hpre x (List.mem_cons_of_mem l hx))
    rw [List.cons_append, read_until, if_neg (by simpa using hne),
      if_neg (by simp [hch]), ih2]

/-- If no line of the stream satisfies `check`, `read_until` raises the
unexpected-end-of-stream error. -/
theorem read_until_eof_of_no_match (check : List Char → Bool)
    (stream : List (List Char))
    (h : ∀ l ∈ stream, check l = false) :
    read_until check stream = .error "Unexpected EOF" := by
  induction stream with
  | nil => rfl
  | cons l ls ih =>
    by_cases hne : l = []
    · rw [read_until, if_pos hne]
    · have hch := h l (List.mem_cons_self l ls)
      have ih2 := ih (fun x hx => h x (List.mem_cons_of_mem l hx))
      rw [read_until, if_neg hne, if_neg (by simp [hch]), ih2]

/-- The dependency loop over an explicitly delimited block: every line
before the end marker is classified exactly once, in stream order, and
the entry lists are concatenated in that same order. -/
theorem processBlock_append (env : Env) (endL : List Char)
    (deps junk : List (List Char)) (outs : List (List Entry))
    (hne : ∀ l ∈ deps, l ≠ [] ∧ l ≠ endL)
    (hendne : endL ≠ [])
    (hf : List.Forall₂ (fun l es => processDep env l = Except.ok es) deps outs) :
    processBlock env endL (deps ++ endL :: junk) = (outs.flatten, none) := by
  induction hf with
  | nil =>
    rw [List.nil_append, processBlock, if_neg (by simpa using hendne),
      if_pos rfl]
    rfl
  | cons h htail ih =>
    rename_i l es ls outs'
    obtain ⟨hlne, hlend⟩ := hne l (List.mem_cons_self l ls)
    have ih2 := ih (fun x hx => hne x (List.mem_cons_of_mem l hx))
    rw [List.cons_append, processBlock, if_neg (by simpa using hlne),
      if_neg (by simpa using hlend), h, ih2]
    simp

/-! ## Concrete environments used in concrete evaluations -/

/-- The default configuration: packages `('biblatex',)`, comment
stripping enabled, every path resolving to itself, every file present. -/
def envDefault : Env :=
  ⟨["biblatex".toList], true, id, fun _ => true⟩

/-- Like `envDefault`, but no file exists (for exercising the `.eps`
companion assertion). -/
def envNoPdf : Env :=
  ⟨["biblatex".toList], true, id, fun _ => false⟩

/-- Two configured packages, as with `-p biblatex -p tikz`. -/
def pkgsBT : List (List Char) :=
  ["biblatex".toList, "tikz".toList]

/-- Configuration with the two packages of `pkgsBT`. -/
def envBT : Env :=
  ⟨pkgsBT, true, id, fun _ => true⟩

/-! ## Claim C1 -/

/-- Claim C1, counterexample: on the line `a%b` the transform does not
remove the unescaped `%`; the result is `a%`, not `a`.  The replacement
`\1%` re-inserts the matched `%`. -/
theorem C1_counterexample :
    strip_comment "a%b".toList ≠ "a".toList ∧
    strip_comment "a%b".toList = "a%".toList :=
  ⟨by decide, rfl⟩

/-- Claim C1 (amended): for every single text line (a newline can occur
only as the final character), the transform keeps the line up to and
including the first unescaped `%` and removes everything after it on the
line (a trailing newline is preserved); an escaped `\%` is preserved
literally and not treated as a comment start; the transform is applied
independently per line. -/
theorem C1_strip_matches_spec (s : List Char) (h : '\n' ∉ s.dropLast) :
    strip_comment s = stripSpec s :=
  stripGo_eq_specGo s ' ' h

/-- Concrete instance of `C1_strip_matches_spec` on the line
`a\%b%c` + newline: the escaped percent survives, the unescaped one is
kept and ends the line's retained content. -/
theorem C1_strip_matches_spec_witness :
    strip_comment "a\\%b%c\n".toList = stripSpec "a\\%b%c\n".toList :=
  C1_strip_matches_spec "a\\%b%c\n".toList (by decide)

/-! ## Claim C8 -/

/-- Claim C8: the comment-stripping transform is idempotent — applying
it twice yields the same result as applying it once, for every input
string. -/
theorem C8_strip_idem (s : List Char) :
    strip_comment (strip_comment s) = strip_comment s :=
  (stripGo_idem s).1 ' '

/-! ## Claim C10 -/

/-- Claim C10: the transform is the identity on lines containing no `%`;
it maps a line with a trailing newline to a line with a trailing newline;
and it preserves the number of newline characters, so the transformed
`.tex` content has exactly as many lines as the input. -/
theorem C10_strip_line_structure :
    (∀ s : List Char, '%' ∉ s → strip_comment s = s) ∧
    (∀ t : List Char, ∃ w, strip_comment (t ++ ['\n']) = w ++ ['\n']) ∧
    (∀ s : List Char, (strip_comment s).count '\n' = s.count '\n') :=
  ⟨fun s h => stripGo_no_percent s ' ' h,
   fun t => (stripGo_trailing_newline t).1 ' ',
   fun s => (stripGo_count_newline s).1 ' '⟩

/-- Concrete instance of `C10_strip_line_structure`: a comment-free line
is returned unchanged. -/
theorem C10_strip_line_structure_witness :
    strip_comment "x = 1 + 2\n".toList = "x = 1 + 2\n".toList :=
  C10_strip_line_structure.1 "x = 1 + 2\n".toList (by decide)

/-! ## Claim C2 -/

/-- Claim C2: with packages `('biblatex', 'tikz')` the compiled filter
pattern is `/biblatex|tikz/`, whose alternatives are `/biblatex` and
`tikz/`.  The absolute path `/usr/share/batikz/x.sty` contains `tikz/`
(inside `batikz/`) but contains neither `/biblatex/` nor `/tikz/`, so the
code adds it (flattened to `x.sty`) although the path contains `/<pkg>/`
for no configured package. -/
theorem C2_filter_precedence_bug :
    pkgSearch pkgsBT "/usr/share/batikz/x.sty".toList = true ∧
    pkgMatchSpec pkgsBT "/usr/share/batikz/x.sty".toList = false ∧
    processDep envBT "/usr/share/batikz/x.sty\n".toList =
      Except.ok [⟨"/usr/share/batikz/x.sty".toList, "x.sty".toList,
        Kind.verbatim⟩] :=
  ⟨rfl, rfl, rfl⟩

/-! ## Claim C3 -/

/-- Claim C3, counterexample: an absolute `.bib` path inside a matched
package directory is checked by the absolute-path branch first, so an
archive entry is created for it (flattened to `refs.bib`), contradicting
the claim that `.bib` dependency lines never create an entry. -/
theorem C3_counterexample :
    processDep envDefault "/usr/share/texmf/biblatex/refs.bib\n".toList =
      Except.ok [⟨"/usr/share/texmf/biblatex/refs.bib".toList,
        "refs.bib".toList, Kind.verbatim⟩] ∧
    processDep envDefault "/usr/share/texmf/biblatex/refs.bib\n".toList ≠
      Except.ok [] := by
  refine ⟨rfl, ?_⟩
  intro h
  rw [show processDep envDefault "/usr/share/texmf/biblatex/refs.bib\n".toList =
      Except.ok [⟨"/usr/share/texmf/biblatex/refs.bib".toList,
        "refs.bib".toList, Kind.verbatim⟩] from rfl] at h
  simp at h

/-- Claim C3 (amended): for every dependency line whose cleaned path ends
in `.bib` and is not an absolute path matching the package filter, no
archive entry is created. -/
theorem C3_bib_skipped (env : Env) (l : List Char)
    (hb : endsWithB ".bib".toList (cleanDep l) = true)
    (h : (cleanDep l).head? ≠ some '/' ∨
      pkgSearch env.packages (cleanDep l) = false) :
    processDep env l = Except.ok [] := by
  have htex := bib_not_tex hb
  have heps := bib_not_eps hb
  have hconv := bib_not_converted hb
  rw [processDep, classify]
  by_cases hh : (cleanDep l).head? = some '/'
  · rw [if_pos hh]
    rcases h with h | h
    · exact absurd hh h
    · rw [if_neg (by simp [h])]
  · rw [if_neg hh, if_neg (by rw [htex]; simp), if_neg (by rw [heps]; simp),
      if_neg (by rw [hconv]; simp), if_pos hb]

/-- Concrete instance of `C3_bib_skipped`: the relative line `refs.bib`
creates no entry. -/
theorem C3_bib_skipped_witness :
    processDep envDefault "refs.bib\n".toList = Except.ok [] :=
  C3_bib_skipped envDefault "refs.bib\n".toList (by decide)
    (Or.inl (by decide))

/-! ## Claim C4 -/

/-- Claim C4, counterexample: the absolute line `/tmp/fig.eps` is handled
by the absolute-path branch (checked first), which silently skips it; no
companion path is computed and no fatal failure occurs even though the
companion `/tmp/fig-eps-converted-to.pdf` does not exist. -/
theorem C4_counterexample :
    epsPdf (cleanDep "/tmp/fig.eps\n".toList) =
      "/tmp/fig-eps-converted-to.pdf".toList ∧
    envNoPdf.path_exists "/tmp/fig-eps-converted-to.pdf".toList = false ∧
    processDep envNoPdf "/tmp/fig.eps\n".toList = Except.ok [] :=
  ⟨rfl, rfl, rfl⟩

/-- Claim C4 (amended): for every non-absolute dependency line whose
cleaned path ends in `.eps`, the classifier computes the companion path
by replacing the `.eps` extension with `-eps-converted-to.pdf`, fails
fatally if that companion does not exist, and otherwise adds the
symlink-resolved companion renamed to `<base>.pdf`; absolute `.eps`
paths are instead handled by the absolute-path rule and never reach the
companion logic. -/
theorem C4_eps_companion (env : Env) (l : List Char)
    (habs : (cleanDep l).head? ≠ some '/')
    (he : endsWithB ".eps".toList (cleanDep l) = true) :
    (env.path_exists (epsPdf (cleanDep l)) = false →
      processDep env l = Except.error "AssertionError") ∧
    (env.path_exists (epsPdf (cleanDep l)) = true →
      processDep env l = Except.ok
        [⟨env.target (epsPdf (cleanDep l)),
          epsBase (cleanDep l) ++ ".pdf".toList, Kind.verbatim⟩]) := by
  have htex := eps_not_tex he
  constructor
  · intro hex
    rw [processDep, classify, if_neg habs, if_neg (by rw [htex]; simp),
      if_pos he, if_neg (by rw [hex]; simp)]
  · intro hex
    rw [processDep, classify, if_neg habs, if_neg (by rw [htex]; simp),
      if_pos he, if_pos hex]

/-- Concrete instance of `C4_eps_companion`, the specification scenario:
line `figures/plot.eps` with existing companion yields the archive entry
`figures/plot.pdf` whose content is the resolved companion. -/
theorem C4_eps_companion_witness :
    processDep envDefault "figures/plot.eps\n".toList = Except.ok
      [⟨"figures/plot-eps-converted-to.pdf".toList,
        "figures/plot.pdf".toList, Kind.verbatim⟩] :=
  (C4_eps_companion envDefault "figures/plot.eps\n".toList (by decide)
    (by decide)).2 rfl

/-! ## Claim C9 -/

/-- Claim C9, counterexample: the dependency line
`/usr/share/texmf/biblatex/plot-eps-converted-to.pdf` ends in
`-eps-converted-to.pdf`, yet an archive entry is created for it.  In the
source the branch `dep.startswith('/')` is checked before the
`dep.endswith('-eps-converted-to.pdf')` branch, and with the default
filter `('biblatex',)` the path contains `/biblatex/`, so
`out_tar.add(target(dep), arcname=os.path.basename(dep))` runs and the
file is added flattened as `plot-eps-converted-to.pdf` — contradicting
the claim that such lines never create an entry. -/
theorem C9_counterexample :
    endsWithB "-eps-converted-to.pdf".toList
      (cleanDep "/usr/share/texmf/biblatex/plot-eps-converted-to.pdf\n".toList)
      = true ∧
    processDep envDefault
      "/usr/share/texmf/biblatex/plot-eps-converted-to.pdf\n".toList =
      Except.ok [⟨"/usr/share/texmf/biblatex/plot-eps-converted-to.pdf".toList,
        "plot-eps-converted-to.pdf".toList, Kind.verbatim⟩] ∧
    processDep envDefault
      "/usr/share/texmf/biblatex/plot-eps-converted-to.pdf\n".toList ≠
      Except.ok [] := by
  refine ⟨rfl, rfl, ?_⟩
  intro h
  rw [show processDep envDefault
      "/usr/share/texmf/biblatex/plot-eps-converted-to.pdf\n".toList =
      Except.ok [⟨"/usr/share/texmf/biblatex/plot-eps-converted-to.pdf".toList,
        "plot-eps-converted-to.pdf".toList, Kind.verbatim⟩] from rfl] at h
  simp at h

/-- Claim C9 (amended): for every dependency line whose cleaned path ends
in `-eps-converted-to.pdf` and is not an absolute path matching the
package filter set, no corresponding archive entry is created (avoiding
duplication with the output of the `.eps` handling rule).  Such a path
falls past the absolute-path branch, cannot satisfy the `.tex` or `.eps`
suffix checks, and is consumed by the `pass` branch for the old-style
already-converted companion naming convention. -/
theorem C9_converted_skipped (env : Env) (l : List Char)
    (hc : endsWithB "-eps-converted-to.pdf".toList (cleanDep l) = true)
    (h : (cleanDep l).head? ≠ some '/' ∨
      pkgSearch env.packages (cleanDep l) = false) :
    processDep env l = Except.ok [] := by
  have htex := converted_not_tex hc
  have heps := converted_not_eps hc
  rw [processDep, classify]
  by_cases hh : (cleanDep l).head? = some '/'
  · rw [if_pos hh]
    rcases h with h | h
    · exact absurd hh h
    · rw [if_neg (by simp [h])]
  · rw [if_neg hh, if_neg (by rw [htex]; simp), if_neg (by rw [heps]; simp),
      if_pos hc]

/-- Concrete instance of `C9_converted_skipped`: the relative line
`figures/plot-eps-converted-to.pdf` creates no entry, even though the
duplicate-producing companion `figures/plot.eps` case would have named
its output entry from the same stem. -/
theorem C9_converted_skipped_witness :
    processDep envDefault "figures/plot-eps-converted-to.pdf\n".toList =
      Except.ok [] :=
  C9_converted_skipped envDefault
    "figures/plot-eps-converted-to.pdf\n".toList (by decide)
    (Or.inl (by decide))

/-! ## Claims C5 and C6: a parsed run of `collect` -/

theorem collectAfterStart_cons (env : Env) (base header : List Char)
    (rest2 : List (List Char)) (returncode : Int) :
    collectAfterStart env base (header :: rest2) returncode =
      if pyStrip header = headerExpected base then
        match processBlock env (endLine base) rest2 with
        | (entries, some e) => Outcome.fatal e entries
        | (entries, none) =>
          if returncode ≠ 0 then Outcome.buildFailed returncode entries
          else Outcome.ok (entries ++ [bblEntry base])
      else Outcome.fatal "AssertionError" [] := rfl

/-- Claim C5: given a stream whose dependency block is bounded by the
correct start and end markers (with the expected make-rule header line in
between), the classifier processes every dependency line exactly once, in
the order the build tool emitted them — witnessed by `List.Forall₂` —
archive entries are written in that same order (`outs.flatten`), and on a
successful run (exit status 0) the compiled bibliography entry
`<base>.bbl` is the strictly last entry added. -/
theorem C5_order_and_bbl_last (env : Env) (base : List Char)
    (pre : List (List Char)) (startL header : List Char)
    (deps junk : List (List Char)) (outs : List (List Entry))
    (hpre : ∀ l ∈ pre, l ≠ [] ∧ startCheck base l = false)
    (hstart : startCheck base startL = true)
    (hheader : pyStrip header = headerExpected base)
    (hne : ∀ l ∈ deps, l ≠ [] ∧ l ≠ endLine base)
    (hf : List.Forall₂ (fun l es => processDep env l = Except.ok es) deps outs) :
    collect env base
      (pre ++ startL :: header :: (deps ++ endLine base :: junk)) 0
      = Outcome.ok (outs.flatten ++ [bblEntry base]) := by
  have h1 : read_until (startCheck base)
      (pre ++ startL :: (header :: (deps ++ endLine base :: junk)))
      = .ok (pre, header :: (deps ++ endLine base :: junk)) :=
    read_until_append _ pre startL _ hpre hstart (startCheck_ne_nil hstart)
  have h2 : processBlock env (endLine base) (deps ++ endLine base :: junk)
      = (outs.flatten, none) :=
    processBlock_append env _ deps junk outs hne (endLine_ne_nil base) hf
  rw [collect, h1]
  show collectAfterStart env base (header :: (deps ++ endLine base :: junk)) 0
      = Outcome.ok (outs.flatten ++ [bblEntry base])
  rw [collectAfterStart_cons, if_pos hheader, h2]
  simp

/-- Concrete instance of `C5_order_and_bbl_last`: two dependency lines
produce their entries in stream order, with `main.bbl` last. -/
theorem C5_order_and_bbl_last_witness :
    collect envDefault "main".toList
      ([] ++ "#===Dependents for main:\n".toList ::
        "main.pdf :\\\n".toList ::
        (["fig.png\n".toList, "body.tex\n".toList] ++
          endLine "main".toList :: [])) 0
      = Outcome.ok
        ([[⟨"fig.png".toList, "fig.png".toList, Kind.verbatim⟩],
          [⟨"body.tex".toList, "body.tex".toList, Kind.stripped⟩]].flatten
          ++ [bblEntry "main".toList]) :=
  C5_order_and_bbl_last envDefault "main".toList [] _ _ _ [] _
    (by simp) (by decide) (by decide) (by decide)
    (List.Forall₂.cons rfl (List.Forall₂.cons rfl List.Forall₂.nil))

/-- Claim C6: if the external build process exits with a nonzero status,
the run terminates through the failure path — build-artifact cleanup
followed by `sys.exit` with the very same code — and the `<base>.bbl`
entry is not added: the entries written are exactly those of the
dependency lines, with nothing appended. -/
theorem C6_build_failure_propagates (env : Env) (base : List Char)
    (pre : List (List Char)) (startL header : List Char)
    (deps junk : List (List Char)) (outs : List (List Entry))
    (returncode : Int) (hrc : returncode ≠ 0)
    (hpre : ∀ l ∈ pre, l ≠ [] ∧ startCheck base l = false)
    (hstart : startCheck base startL = true)
    (hheader : pyStrip header = headerExpected base)
    (hne : ∀ l ∈ deps, l ≠ [] ∧ l ≠ endLine base)
    (hf : List.Forall₂ (fun l es => processDep env l = Except.ok es) deps outs) :
    collect env base
      (pre ++ startL :: header :: (deps ++ endLine base :: junk)) returncode
      = Outcome.buildFailed returncode outs.flatten := by
  have h1 : read_until (startCheck base)
      (pre ++ startL :: (header :: (deps ++ endLine base :: junk)))
      = .ok (pre, header :: (deps ++ endLine base :: junk)) :=
    read_until_append _ pre startL _ hpre hstart (startCheck_ne_nil hstart)
  have h2 : processBlock env (endLine base) (deps ++ endLine base :: junk)
      = (outs.flatten, none) :=
    processBlock_append env _ deps junk outs hne (endLine_ne_nil base) hf
  rw [collect, h1]
  show collectAfterStart env base
      (header :: (deps ++ endLine base :: junk)) returncode
      = Outcome.buildFailed returncode outs.flatten
  rw [collectAfterStart_cons, if_pos hheader, h2]
  simp [hrc]

/-- Concrete instance of `C6_build_failure_propagates`, the specification
scenario: the build tool exits with code 12, the program exits with
code 12, and the only entry is the dependency line's — no `main.bbl`. -/
theorem C6_build_failure_propagates_witness :
    collect envDefault "main".toList
      ([] ++ "#===Dependents for main:\n".toList ::
        "main.pdf :\\\n".toList ::
        (["fig.png\n".toList] ++ endLine "main".toList :: [])) 12
      = Outcome.buildFailed 12
        [[⟨"fig.png".toList, "fig.png".toList, Kind.verbatim⟩]].flatten :=
  C6_build_failure_propagates envDefault "main".toList [] _ _ _ [] _ 12
    (by decide) (by simp) (by decide) (by decide) (by decide)
    (List.Forall₂.cons rfl List.Forall₂.nil)

/-! ## Claim C7 -/

/-- Claim C7: if the process output ends before a line matching the
awaited marker is seen (this covers both the start-marker scan and the
end-marker loop, which both run through `read_until`), the parser fails
with the unexpected-end-of-stream error instead of returning normally
with a truncated sequence. -/
theorem C7_unexpected_eof (check : List Char → Bool)
    (stream : List (List Char))
    (h : ∀ l ∈ stream, check l = false) :
    read_until check stream = Except.error "Unexpected EOF" := by
  induction stream with
  | nil => rfl
  | cons l ls ih =>
    by_cases hne : l = []
    · rw [read_until, if_pos hne]
    · have hch := h l (List.mem_cons_self l ls)
      have ih2 := ih (fun x hx => h x (List.mem_cons_of_mem l hx))
      rw [read_until, if_neg hne, if_neg (by simp [hch]), ih2]

/-- Concrete instance of `C7_unexpected_eof`: a stream that ends before
the start marker for `main` produces the unexpected-EOF error. -/
theorem C7_unexpected_eof_witness :
    read_until (startCheck "main".toList)
      ["Latexmk: This is Latexmk\n".toList, "Rule latex\n".toList]
      = Except.error "Unexpected EOF" :=
  C7_unexpected_eof (startCheck "main".toList) _ (by decide)

end ArxivCollector
